import Mathlib

/-!
Shallow embedding of `src/plane.rs` (rav1e pixel-plane buffer) and proofs of
the specification claims about it.

Pixel values are modelled as `Nat`; the generic pixel type parameter
`T : Pixel` (u8 or u16) is modelled by a byte-width field `bytes`
(`size_of::<T>()`).  Buffers are modelled as a total function `Nat → Nat`
together with an explicit length, mirroring `Vec<T>`.  Operations that can
panic in Rust (assertion failures, zero chunk sizes, out-of-range byte-pair
indexing) return `Option`, with `none` standing for the fatal stop.
-/

namespace RavPlane

/-- Modelled from the spec: `align_power_of_two` from the missing `util`
module rounds `x` up to the next multiple of `2 ^ n`
(the spec calls it `align_up` with a power-of-two unit). -/
def alignPowerOfTwo (x n : Nat) : Nat :=
  ((x + (1 <<< n) - 1) >>> n) <<< n

/-- Modelled from the spec: `T::cast_from` for a pixel type of `b` bytes
(8-bit or 16-bit unsigned sample); conversion from a wider integer keeps
the low `8 * b` bits, as a Rust `as` conversion does. -/
def castFrom (b v : Nat) : Nat := v % 2 ^ (8 * b)

/-- `PlaneConfig` from the source: plane-specific configuration. -/
structure PlaneConfig where
  stride : Nat
  alloc_height : Nat
  width : Nat
  height : Nat
  xdec : Nat
  ydec : Nat
  xpad : Nat
  ypad : Nat
  xorigin : Nat
  yorigin : Nat
deriving Repr, DecidableEq

/-- `Plane<T>` from the source: `bytes` models `size_of::<T>()`, `data`
and `dataLen` model the `Vec<T>` contents and length. -/
structure Plane where
  bytes : Nat
  data : Nat → Nat
  dataLen : Nat
  cfg : PlaneConfig

/-- `Plane::STRIDE_ALIGNMENT_LOG2` (stride alignment in bytes). -/
def STRIDE_ALIGNMENT_LOG2 : Nat := 4

/-- `Plane::new`: computes the geometry and allocates the buffer filled
with `T::cast_from(128)`. -/
def Plane.new (bytes width height xdec ydec xpad ypad : Nat) : Plane :=
  let xorigin := alignPowerOfTwo xpad (STRIDE_ALIGNMENT_LOG2 - 1)
  let yorigin := ypad
  let stride := alignPowerOfTwo (xorigin + width + xpad) (STRIDE_ALIGNMENT_LOG2 - 1)
  let alloc_height := yorigin + height + ypad
  { bytes := bytes
    data := fun _ => castFrom bytes 128
    dataLen := stride * alloc_height
    cfg :=
      { stride := stride
        alloc_height := alloc_height
        width := width
        height := height
        xdec := xdec
        ydec := ydec
        xpad := xpad
        ypad := ypad
        xorigin := xorigin
        yorigin := yorigin } }

/-- `Plane::index`: buffer offset of visible pixel `(x, y)`. -/
def Plane.index (p : Plane) (x y : Nat) : Nat :=
  (y + p.cfg.yorigin) * p.cfg.stride + (x + p.cfg.xorigin)

/-- `Plane::p`: direct pixel access. -/
def Plane.p (p : Plane) (x y : Nat) : Nat := p.data (p.index x y)

/-! ### Arithmetic helpers -/

theorem div_mod_of_decomp {s a t : Nat} (ht : t < s) :
    (a * s + t) / s = a ∧ (a * s + t) % s = t := by
  have hs : 0 < s := Nat.lt_of_le_of_lt (Nat.zero_le _) ht
  constructor
  · rw [Nat.add_comm, Nat.mul_comm, Nat.add_mul_div_left _ _ hs,
      Nat.div_eq_of_lt ht, Nat.zero_add]
  · rw [Nat.add_comm, Nat.mul_comm, Nat.add_mul_mod_self_left,
      Nat.mod_eq_of_lt ht]

theorem row_col_eq {s a b j k : Nat} (hj : j < s) (hk : k < s)
    (h : a * s + j = b * s + k) : a = b ∧ j = k := by
  obtain ⟨hda, hma⟩ := div_mod_of_decomp (a := a) hj
  obtain ⟨hdb, hmb⟩ := div_mod_of_decomp (a := b) hk
  constructor
  · rw [← hda, ← hdb, h]
  · rw [← hma, ← hmb, h]

theorem le_alignPowerOfTwo (x n : Nat) : x ≤ alignPowerOfTwo x n := by
  unfold alignPowerOfTwo
  rw [Nat.shiftLeft_eq, Nat.shiftRight_eq_div_pow, Nat.shiftLeft_eq, Nat.one_mul]
  have hp : 0 < 2 ^ n := Nat.pos_pow_of_pos n (by decide)
  have hdm := Nat.div_add_mod (x + 2 ^ n - 1) (2 ^ n)
  have hm := Nat.mod_lt (x + 2 ^ n - 1) hp
  rw [Nat.mul_comm]
  omega

theorem alignPowerOfTwo_mod (x n : Nat) : alignPowerOfTwo x n % 2 ^ n = 0 := by
  unfold alignPowerOfTwo
  rw [Nat.shiftLeft_eq, Nat.shiftRight_eq_div_pow, Nat.shiftLeft_eq, Nat.one_mul]
  exact Nat.mul_mod_left _ _

/-! ### C3: stride alignment.

The source computes
`stride = (xorigin + width + xpad).align_power_of_two(STRIDE_ALIGNMENT_LOG2 - 1)`,
i.e. it aligns the element count to `2 ^ 3 = 8` elements — half of the
16-element unit for 1-byte samples (and exactly 16 bytes only when a sample
is 2 bytes wide).  The claim that the stride is aligned to the full unit of
16 bytes' worth of elements fails for 1-byte samples. -/

/-- The number of elements making up 16 bytes for a sample width of `b`
bytes: the claimed "fixed alignment unit". -/
def unitElems (b : Nat) : Nat := 2 ^ STRIDE_ALIGNMENT_LOG2 / b

/-- C3 counterexample: for a 1-byte plane with `width = 12, xpad = 2`
the stride is `24` elements, which is not a multiple of the 16-element
(16-byte) unit. -/
theorem stride_full_unit_cex :
    ¬ ((Plane.new 1 12 1 0 0 2 0).cfg.stride % unitElems 1 = 0) := by decide

/-- C3 (amended): the stride equals `origin_x + width + xpad` aligned up to
`2 ^ (STRIDE_ALIGNMENT_LOG2 - 1) = 8` elements — half the 16-element unit
for 1-byte samples, the full 16-byte unit only for 2-byte samples — and in
particular it is a multiple of 8 elements and at least
`origin_x + width + xpad`. -/
theorem stride_half_unit_aligned (b w h xdec ydec xpad ypad : Nat) :
    (Plane.new b w h xdec ydec xpad ypad).cfg.stride
        = alignPowerOfTwo ((Plane.new b w h xdec ydec xpad ypad).cfg.xorigin + w + xpad)
            (STRIDE_ALIGNMENT_LOG2 - 1) ∧
      (Plane.new b w h xdec ydec xpad ypad).cfg.stride % 2 ^ (STRIDE_ALIGNMENT_LOG2 - 1) = 0 ∧
      (Plane.new b w h xdec ydec xpad ypad).cfg.xorigin + w + xpad
        ≤ (Plane.new b w h xdec ydec xpad ypad).cfg.stride := by
  refine ⟨rfl, alignPowerOfTwo_mod _ _, le_alignPowerOfTwo _ _⟩

/-! ### C7: allocation geometry of `Plane::new`. -/

/-- C7: `new` allocates exactly `stride * alloc_height` samples with
`alloc_height = origin_y + height + ypad`, `origin_x ≥ xpad` aligned to
half the alignment unit, and every sample set to 128. -/
theorem new_allocation (b w h xdec ydec xpad ypad : Nat) (hb : b = 1 ∨ b = 2) :
    (Plane.new b w h xdec ydec xpad ypad).dataLen
        = (Plane.new b w h xdec ydec xpad ypad).cfg.stride
            * (Plane.new b w h xdec ydec xpad ypad).cfg.alloc_height ∧
      (Plane.new b w h xdec ydec xpad ypad).cfg.alloc_height
        = (Plane.new b w h xdec ydec xpad ypad).cfg.yorigin + h
            + (Plane.new b w h xdec ydec xpad ypad).cfg.ypad ∧
      xpad ≤ (Plane.new b w h xdec ydec xpad ypad).cfg.xorigin ∧
      (Plane.new b w h xdec ydec xpad ypad).cfg.xorigin % (unitElems b / 2) = 0 ∧
      ∀ i, (Plane.new b w h xdec ydec xpad ypad).data i = 128 := by
  refine ⟨rfl, rfl, le_alignPowerOfTwo _ _, ?_, ?_⟩
  · have h8 : (Plane.new b w h xdec ydec xpad ypad).cfg.xorigin % 2 ^ 3 = 0 :=
      alignPowerOfTwo_mod _ _
    rcases hb with rfl | rfl
    · exact h8
    · show (Plane.new 2 w h xdec ydec xpad ypad).cfg.xorigin % 4 = 0
      omega
  · intro i
    show castFrom b 128 = 128
    rcases hb with rfl | rfl <;> decide

/-- C7 witness at `b = 1, (w, h, xdec, ydec, xpad, ypad) = (4, 2, 0, 0, 2, 2)`. -/
theorem new_allocation_witness :
    (1 = 1 ∨ 1 = 2) ∧
      ((Plane.new 1 4 2 0 0 2 2).dataLen
          = (Plane.new 1 4 2 0 0 2 2).cfg.stride * (Plane.new 1 4 2 0 0 2 2).cfg.alloc_height ∧
        (Plane.new 1 4 2 0 0 2 2).cfg.alloc_height
          = (Plane.new 1 4 2 0 0 2 2).cfg.yorigin + 2 + (Plane.new 1 4 2 0 0 2 2).cfg.ypad ∧
        2 ≤ (Plane.new 1 4 2 0 0 2 2).cfg.xorigin ∧
        (Plane.new 1 4 2 0 0 2 2).cfg.xorigin % (unitElems 1 / 2) = 0 ∧
        ∀ i, (Plane.new 1 4 2 0 0 2 2).data i = 128) :=
  ⟨Or.inl rfl, new_allocation 1 4 2 0 0 2 2 (Or.inl rfl)⟩

/-! ### Buffer mutation primitives -/

/-- Single element write `buf[i] = v`. -/
def upd (f : Nat → Nat) (i v : Nat) : Nat → Nat :=
  fun j => if j = i then v else f j

/-- Denotation of the fill loop `for val in s.iter_mut() { *val = fill_val }`
over buffer indices `[start, start + len)`. -/
def fillRange (f : Nat → Nat) (start len v : Nat) : Nat → Nat :=
  fun i => if start ≤ i ∧ i < start + len then v else f i

/-- Denotation of `copy_from_slice` copying `len` elements from offset `src`
to offset `dst` (the source and destination ranges are disjoint wherever the
source program performs such a copy, so reading from the pre-state is exact). -/
def copyRange (f : Nat → Nat) (dst src len : Nat) : Nat → Nat :=
  fun i => if dst ≤ i ∧ i < dst + len then f (src + (i - dst)) else f i

/-! ### `Plane::pad`

The four passes of `pad` (left border, right border, top rows, bottom rows)
are embedded as four functions on the buffer contents, composed in source
order.  Buffer offsets: a plane slice at `PlaneOffset {x, y}` starts at
buffer index `(y + yorigin) * stride + (x + xorigin)`. -/

/-- First `pad` block: for each visible row, fill the `xorigin` samples left
of the visible region with the sample at `x = 0` of that row. -/
def padLeftPass (c : PlaneConfig) (height : Nat) (f : Nat → Nat) : Nat → Nat :=
  if 0 < c.xorigin then
    (List.range height).foldl
      (fun g y =>
        let base := (y + c.yorigin) * c.stride
        fillRange g base c.xorigin (g (base + c.xorigin)))
      f
  else f

/-- Second `pad` block: for each visible row, fill everything right of the
visible region up to the end of the stride with the sample at
`x = width - 1` of that row. -/
def padRightPass (c : PlaneConfig) (width height : Nat) (f : Nat → Nat) : Nat → Nat :=
  if c.xorigin + width < c.stride then
    (List.range height).foldl
      (fun g y =>
        let base := (y + c.yorigin) * c.stride + (c.xorigin + width - 1)
        fillRange g (base + 1) (c.stride - c.xorigin - width) (g base))
      f
  else f

/-- Third `pad` block: copy the full-stride row at `yorigin` (visible row 0)
into each of the `yorigin` rows above it. -/
def padTopPass (c : PlaneConfig) (f : Nat → Nat) : Nat → Nat :=
  if 0 < c.yorigin then
    (List.range c.yorigin).foldl
      (fun g y => copyRange g (y * c.stride) (c.yorigin * c.stride) c.stride)
      f
  else f

/-- Fourth `pad` block: copy the full-stride row at `yorigin + height - 1`
(the last visible row) into each of the `yorigin` rows below the visible
region. -/
def padBottomPass (c : PlaneConfig) (height : Nat) (f : Nat → Nat) : Nat → Nat :=
  if c.yorigin + height < c.alloc_height then
    (List.range c.yorigin).foldl
      (fun g y =>
        copyRange g ((c.yorigin + height + y) * c.stride)
          ((c.yorigin + height - 1) * c.stride) c.stride)
      f
  else f

/-- `Plane::pad(w, h)`: replicate the edge-most visible samples outward,
at this plane's own (subsampled) width `w >> xdec` and height `h >> ydec`. -/
def Plane.pad (p : Plane) (w h : Nat) : Plane :=
  let width := w >>> p.cfg.xdec
  let height := h >>> p.cfg.ydec
  let d := padBottomPass p.cfg height
    (padTopPass p.cfg
      (padRightPass p.cfg width height
        (padLeftPass p.cfg height p.data)))
  { p with data := d }

/-! ### Generic characterizations of the pass loops -/

theorem foldl_fill_out (rb : Nat → Nat) (len : Nat) (src : Nat → Nat)
    (f : Nat → Nat) (n i : Nat)
    (h : ∀ y, y < n → ¬ (rb y ≤ i ∧ i < rb y + len)) :
    ((List.range n).foldl (fun g y => fillRange g (rb y) len (g (src y))) f) i
      = f i := by
  induction n with
  | zero => simp [List.range_zero]
  | succ n ih =>
    rw [List.range_succ, List.foldl_append, List.foldl_cons, List.foldl_nil]
    show fillRange _ (rb n) len _ i = f i
    simp only [fillRange]
    rw [if_neg (h n (Nat.lt_succ_self n))]
    exact ih fun y hy => h y (Nat.lt_succ_of_lt hy)

theorem foldl_fill_in (rb : Nat → Nat) (len : Nat) (src : Nat → Nat)
    (f : Nat → Nat) (n y i : Nat) (hy : y < n)
    (hi1 : rb y ≤ i) (hi2 : i < rb y + len)
    (hdisj : ∀ y', y' < n → y' ≠ y → ¬ (rb y' ≤ i ∧ i < rb y' + len))
    (hsrc : ∀ y', y' < n → ¬ (rb y' ≤ src y ∧ src y < rb y' + len)) :
    ((List.range n).foldl (fun g y => fillRange g (rb y) len (g (src y))) f) i
      = f (src y) := by
  induction n with
  | zero => exact absurd hy (Nat.not_lt_zero y)
  | succ n ih =>
    rw [List.range_succ, List.foldl_append, List.foldl_cons, List.foldl_nil]
    show fillRange _ (rb n) len _ i = f (src y)
    by_cases hyn : y = n
    · subst hyn
      simp only [fillRange]
      rw [if_pos ⟨hi1, hi2⟩]
      exact foldl_fill_out rb len src f y (src y)
        fun y' hy' => hsrc y' (Nat.lt_succ_of_lt hy')
    · have hy' : y < n := Nat.lt_of_le_of_ne (Nat.le_of_lt_succ hy) hyn
      simp only [fillRange]
      rw [if_neg (hdisj n (Nat.lt_succ_self n) fun hne => hyn hne.symm)]
      exact ih hy' (fun y' h1 h2 => hdisj y' (Nat.lt_succ_of_lt h1) h2)
        (fun y' h1 => hsrc y' (Nat.lt_succ_of_lt h1))

theorem foldl_copy_out (db : Nat → Nat) (src len : Nat)
    (f : Nat → Nat) (n i : Nat)
    (h : ∀ y, y < n → ¬ (db y ≤ i ∧ i < db y + len)) :
    ((List.range n).foldl (fun g y => copyRange g (db y) src len) f) i = f i := by
  induction n with
  | zero => simp [List.range_zero]
  | succ n ih =>
    rw [List.range_succ, List.foldl_append, List.foldl_cons, List.foldl_nil]
    show copyRange _ (db n) src len i = f i
    simp only [copyRange]
    rw [if_neg (h n (Nat.lt_succ_self n))]
    exact ih fun y hy => h y (Nat.lt_succ_of_lt hy)

theorem foldl_copy_in (db : Nat → Nat) (src len : Nat)
    (f : Nat → Nat) (n y i : Nat) (hy : y < n)
    (hi1 : db y ≤ i) (hi2 : i < db y + len)
    (hdisj : ∀ y', y' < n → y' ≠ y → ¬ (db y' ≤ i ∧ i < db y' + len))
    (hsrc : ∀ y', y' < n → ∀ t, t < len → ¬ (db y' ≤ src + t ∧ src + t < db y' + len)) :
    ((List.range n).foldl (fun g y => copyRange g (db y) src len) f) i
      = f (src + (i - db y)) := by
  induction n with
  | zero => exact absurd hy (Nat.not_lt_zero y)
  | succ n ih =>
    rw [List.range_succ, List.foldl_append, List.foldl_cons, List.foldl_nil]
    show copyRange _ (db n) src len i = f (src + (i - db y))
    by_cases hyn : y = n
    · subst hyn
      simp only [copyRange]
      rw [if_pos ⟨hi1, hi2⟩]
      exact foldl_copy_out db src len f y (src + (i - db y))
        fun y' hy' => hsrc y' (Nat.lt_succ_of_lt hy') (i - db y) (by omega)
    · have hy' : y < n := Nat.lt_of_le_of_ne (Nat.le_of_lt_succ hy) hyn
      simp only [copyRange]
      rw [if_neg (hdisj n (Nat.lt_succ_self n) fun hne => hyn hne.symm)]
      exact ih hy' (fun y' h1 h2 => hdisj y' (Nat.lt_succ_of_lt h1) h2)
        (fun y' h1 => hsrc y' (Nat.lt_succ_of_lt h1))

/-- An index lying in row `a` at column `t` (with `t < s`) is outside the
segment of columns `[u, u + v)` of row `r` (whose bounds are `L` and `R`)
whenever the rows differ or the column lies outside `[u, u + v)`. -/
theorem notin_row_region (r u v : Nat) {s a t L R : Nat} (ht : t < s)
    (hc : u + v ≤ s) (hL : L = r * s + u) (hR : R = r * s + u + v)
    (hnot : a ≠ r ∨ t < u ∨ u + v ≤ t) :
    ¬ (L ≤ a * s + t ∧ a * s + t < R) := by
  subst hL hR
  rintro ⟨h1, h2⟩
  have hle : r * s ≤ a * s + t := Nat.le_trans (Nat.le_add_right _ _) h1
  have hdec : a * s + t = r * s + (a * s + t - r * s) := by omega
  have hj : a * s + t - r * s < s := by omega
  obtain ⟨ha, htj⟩ := row_col_eq ht hj hdec
  subst ha
  omega

/-! ### Pointwise characterization of each `pad` pass -/

theorem padLeftPass_out (c : PlaneConfig) (H : Nat) (f : Nat → Nat) (a t : Nat)
    (ht : t < c.stride) (hxo : c.xorigin ≤ c.stride)
    (h : c.xorigin ≤ t ∨ a < c.yorigin ∨ c.yorigin + H ≤ a) :
    padLeftPass c H f (a * c.stride + t) = f (a * c.stride + t) := by
  unfold padLeftPass
  split
  · exact foldl_fill_out (fun y => (y + c.yorigin) * c.stride) c.xorigin
      (fun y => (y + c.yorigin) * c.stride + c.xorigin) f H (a * c.stride + t)
      fun y hy => notin_row_region (y + c.yorigin) 0 c.xorigin ht (by beta_reduce; omega)
        (by beta_reduce; omega) (by beta_reduce; omega) (by beta_reduce; omega)
  · rfl

theorem padLeftPass_in (c : PlaneConfig) (H : Nat) (f : Nat → Nat) (y j : Nat)
    (hy : y < H) (hj : j < c.xorigin) (hxos : c.xorigin < c.stride) :
    padLeftPass c H f ((y + c.yorigin) * c.stride + j)
      = f ((y + c.yorigin) * c.stride + c.xorigin) := by
  unfold padLeftPass
  rw [if_pos (by omega : 0 < c.xorigin)]
  exact foldl_fill_in (fun y => (y + c.yorigin) * c.stride) c.xorigin
    (fun y => (y + c.yorigin) * c.stride + c.xorigin) f H y
    ((y + c.yorigin) * c.stride + j) hy (by beta_reduce; omega) (by beta_reduce; omega)
    (fun y' hy' hne => notin_row_region (y' + c.yorigin) 0 c.xorigin (by beta_reduce; omega)
      (by beta_reduce; omega) (by beta_reduce; omega) (by beta_reduce; omega) (by beta_reduce; omega))
    (fun y' hy' => notin_row_region (y' + c.yorigin) 0 c.xorigin hxos
      (by beta_reduce; omega) (by beta_reduce; omega) (by beta_reduce; omega) (by beta_reduce; omega))

theorem padRightPass_out (c : PlaneConfig) (W H : Nat) (f : Nat → Nat) (a t : Nat)
    (ht : t < c.stride) (hW1 : 1 ≤ W) (hWs : c.xorigin + W ≤ c.stride)
    (h : t < c.xorigin + W ∨ a < c.yorigin ∨ c.yorigin + H ≤ a) :
    padRightPass c W H f (a * c.stride + t) = f (a * c.stride + t) := by
  unfold padRightPass
  split
  · exact foldl_fill_out
      (fun y => (y + c.yorigin) * c.stride + (c.xorigin + W - 1) + 1)
      (c.stride - c.xorigin - W)
      (fun y => (y + c.yorigin) * c.stride + (c.xorigin + W - 1)) f H
      (a * c.stride + t)
      fun y hy => notin_row_region (y + c.yorigin) (c.xorigin + W)
        (c.stride - c.xorigin - W) ht (by beta_reduce; omega) (by beta_reduce; omega) (by beta_reduce; omega) (by beta_reduce; omega)
  · rfl

theorem padRightPass_in (c : PlaneConfig) (W H : Nat) (f : Nat → Nat) (y x : Nat)
    (hy : y < H) (hW1 : 1 ≤ W) (hx1 : W ≤ x) (hx2 : c.xorigin + x < c.stride) :
    padRightPass c W H f ((y + c.yorigin) * c.stride + (c.xorigin + x))
      = f ((y + c.yorigin) * c.stride + (c.xorigin + W - 1)) := by
  unfold padRightPass
  rw [if_pos (by omega : c.xorigin + W < c.stride)]
  exact foldl_fill_in
    (fun y => (y + c.yorigin) * c.stride + (c.xorigin + W - 1) + 1)
    (c.stride - c.xorigin - W)
    (fun y => (y + c.yorigin) * c.stride + (c.xorigin + W - 1)) f H y
    ((y + c.yorigin) * c.stride + (c.xorigin + x)) hy (by beta_reduce; omega) (by beta_reduce; omega)
    (fun y' hy' hne => notin_row_region (y' + c.yorigin) (c.xorigin + W)
      (c.stride - c.xorigin - W) hx2 (by beta_reduce; omega) (by beta_reduce; omega) (by beta_reduce; omega) (by beta_reduce; omega))
    (fun y' hy' => notin_row_region (y' + c.yorigin) (c.xorigin + W)
      (c.stride - c.xorigin - W) (by beta_reduce; omega) (by beta_reduce; omega) (by beta_reduce; omega) (by beta_reduce; omega)
      (by beta_reduce; omega))

theorem padTopPass_out (c : PlaneConfig) (f : Nat → Nat) (a t : Nat)
    (ht : t < c.stride) (h : c.yorigin ≤ a) :
    padTopPass c f (a * c.stride + t) = f (a * c.stride + t) := by
  unfold padTopPass
  split
  · exact foldl_copy_out (fun y => y * c.stride) (c.yorigin * c.stride) c.stride
      f c.yorigin (a * c.stride + t)
      fun y hy => notin_row_region y 0 c.stride ht (by beta_reduce; omega) (by beta_reduce; omega)
        (by beta_reduce; omega) (by beta_reduce; omega)
  · rfl

theorem padTopPass_in (c : PlaneConfig) (f : Nat → Nat) (y j : Nat)
    (hy : y < c.yorigin) (hj : j < c.stride) :
    padTopPass c f (y * c.stride + j) = f (c.yorigin * c.stride + j) := by
  unfold padTopPass
  rw [if_pos (by omega : 0 < c.yorigin)]
  have h2 := foldl_copy_in (fun y => y * c.stride) (c.yorigin * c.stride)
    c.stride f c.yorigin y (y * c.stride + j) hy (by beta_reduce; omega) (by beta_reduce; omega)
    (fun y' hy' hne => notin_row_region y' 0 c.stride hj (by beta_reduce; omega) (by beta_reduce; omega)
      (by beta_reduce; omega) (by beta_reduce; omega))
    (fun y' hy' t htl => notin_row_region y' 0 c.stride htl (by beta_reduce; omega)
      (by beta_reduce; omega) (by beta_reduce; omega) (by beta_reduce; omega))
  rw [Nat.add_sub_cancel_left] at h2
  exact h2

theorem padBottomPass_out (c : PlaneConfig) (H : Nat) (f : Nat → Nat) (a t : Nat)
    (ht : t < c.stride) (h : a < c.yorigin + H) :
    padBottomPass c H f (a * c.stride + t) = f (a * c.stride + t) := by
  unfold padBottomPass
  split
  · exact foldl_copy_out (fun y => (c.yorigin + H + y) * c.stride)
      ((c.yorigin + H - 1) * c.stride) c.stride f c.yorigin (a * c.stride + t)
      fun y hy => notin_row_region (c.yorigin + H + y) 0 c.stride ht (by beta_reduce; omega)
        (by beta_reduce; omega) (by beta_reduce; omega) (by beta_reduce; omega)
  · rfl

theorem padBottomPass_in (c : PlaneConfig) (H : Nat) (f : Nat → Nat) (y j : Nat)
    (hy : y < c.yorigin) (hj : j < c.stride) (hH1 : 1 ≤ H)
    (hg : c.yorigin + H < c.alloc_height) :
    padBottomPass c H f ((c.yorigin + H + y) * c.stride + j)
      = f ((c.yorigin + H - 1) * c.stride + j) := by
  unfold padBottomPass
  rw [if_pos hg]
  have h2 := foldl_copy_in (fun y => (c.yorigin + H + y) * c.stride)
    ((c.yorigin + H - 1) * c.stride) c.stride f c.yorigin y
    ((c.yorigin + H + y) * c.stride + j) hy (by beta_reduce; omega) (by beta_reduce; omega)
    (fun y' hy' hne => notin_row_region (c.yorigin + H + y') 0 c.stride hj
      (by beta_reduce; omega) (by beta_reduce; omega) (by beta_reduce; omega) (by beta_reduce; omega))
    (fun y' hy' t htl => notin_row_region (c.yorigin + H + y') 0 c.stride htl
      (by beta_reduce; omega) (by beta_reduce; omega) (by beta_reduce; omega) (by beta_reduce; omega))
  rw [Nat.add_sub_cancel_left] at h2
  exact h2

/-! ### The value of the padded buffer at each border position -/

theorem padData_left (c : PlaneConfig) (W H : Nat) (d : Nat → Nat)
    (hW1 : 1 ≤ W) (hWs : c.xorigin + W ≤ c.stride)
    (y j : Nat) (hy : y < H) (hj : j < c.xorigin) :
    padBottomPass c H (padTopPass c (padRightPass c W H (padLeftPass c H d)))
        ((y + c.yorigin) * c.stride + j)
      = padBottomPass c H (padTopPass c (padRightPass c W H (padLeftPass c H d)))
          ((y + c.yorigin) * c.stride + c.xorigin) := by
  have hxos : c.xorigin < c.stride := by omega
  have hjs : j < c.stride := by omega
  rw [padBottomPass_out c H _ (y + c.yorigin) j hjs (by omega),
    padTopPass_out c _ (y + c.yorigin) j hjs (by omega),
    padRightPass_out c W H _ (y + c.yorigin) j hjs hW1 hWs (by omega),
    padLeftPass_in c H d y j hy hj hxos,
    padBottomPass_out c H _ (y + c.yorigin) c.xorigin hxos (by omega),
    padTopPass_out c _ (y + c.yorigin) c.xorigin hxos (by omega),
    padRightPass_out c W H _ (y + c.yorigin) c.xorigin hxos hW1 hWs (by omega),
    padLeftPass_out c H d (y + c.yorigin) c.xorigin hxos (by omega) (by omega)]

theorem padData_right (c : PlaneConfig) (W H : Nat) (d : Nat → Nat)
    (hW1 : 1 ≤ W) (hWs : c.xorigin + W ≤ c.stride)
    (y x : Nat) (hy : y < H) (hx1 : W ≤ x) (hx2 : c.xorigin + x < c.stride) :
    padBottomPass c H (padTopPass c (padRightPass c W H (padLeftPass c H d)))
        ((y + c.yorigin) * c.stride + (c.xorigin + x))
      = padBottomPass c H (padTopPass c (padRightPass c W H (padLeftPass c H d)))
          ((y + c.yorigin) * c.stride + (c.xorigin + (W - 1))) := by
  have hts : c.xorigin + (W - 1) < c.stride := by omega
  rw [padBottomPass_out c H _ (y + c.yorigin) (c.xorigin + x) hx2 (by omega),
    padTopPass_out c _ (y + c.yorigin) (c.xorigin + x) hx2 (by omega),
    padRightPass_in c W H _ y x hy hW1 hx1 hx2,
    padLeftPass_out c H d (y + c.yorigin) (c.xorigin + W - 1) (by omega)
      (by omega) (by omega),
    padBottomPass_out c H _ (y + c.yorigin) (c.xorigin + (W - 1)) hts (by omega),
    padTopPass_out c _ (y + c.yorigin) (c.xorigin + (W - 1)) hts (by omega),
    padRightPass_out c W H _ (y + c.yorigin) (c.xorigin + (W - 1)) hts hW1 hWs
      (by omega),
    padLeftPass_out c H d (y + c.yorigin) (c.xorigin + (W - 1)) hts (by omega)
      (by omega)]
  have he : c.xorigin + W - 1 = c.xorigin + (W - 1) := by omega
  rw [he]

theorem padData_top (c : PlaneConfig) (W H : Nat) (d : Nat → Nat)
    (hH1 : 1 ≤ H) (y j : Nat) (hy : y < c.yorigin) (hj : j < c.stride) :
    padBottomPass c H (padTopPass c (padRightPass c W H (padLeftPass c H d)))
        (y * c.stride + j)
      = padBottomPass c H (padTopPass c (padRightPass c W H (padLeftPass c H d)))
          (c.yorigin * c.stride + j) := by
  rw [padBottomPass_out c H _ y j hj (by omega),
    padTopPass_in c _ y j hy hj,
    padBottomPass_out c H _ c.yorigin j hj (by omega),
    padTopPass_out c _ c.yorigin j hj (by omega)]

theorem padData_bottom (c : PlaneConfig) (W H : Nat) (d : Nat → Nat)
    (hH1 : 1 ≤ H) (hg : c.yorigin + H < c.alloc_height)
    (y j : Nat) (hy : y < c.yorigin) (hj : j < c.stride) :
    padBottomPass c H (padTopPass c (padRightPass c W H (padLeftPass c H d)))
        ((c.yorigin + H + y) * c.stride + j)
      = padBottomPass c H (padTopPass c (padRightPass c W H (padLeftPass c H d)))
          ((c.yorigin + H - 1) * c.stride + j) := by
  rw [padBottomPass_in c H _ y j hy hj hH1 hg,
    padBottomPass_out c H _ (c.yorigin + H - 1) j hj (by omega)]

theorem padData_visible (c : PlaneConfig) (W H : Nat) (d : Nat → Nat)
    (hW1 : 1 ≤ W) (hWs : c.xorigin + W ≤ c.stride)
    (x y : Nat) (hx : x < W) (hy : y < H) :
    padBottomPass c H (padTopPass c (padRightPass c W H (padLeftPass c H d)))
        ((y + c.yorigin) * c.stride + (x + c.xorigin))
      = d ((y + c.yorigin) * c.stride + (x + c.xorigin)) := by
  have ht : x + c.xorigin < c.stride := by omega
  rw [padBottomPass_out c H _ (y + c.yorigin) (x + c.xorigin) ht (by omega),
    padTopPass_out c _ (y + c.yorigin) (x + c.xorigin) ht (by omega),
    padRightPass_out c W H _ (y + c.yorigin) (x + c.xorigin) ht hW1 hWs
      (by omega),
    padLeftPass_out c H d (y + c.yorigin) (x + c.xorigin) ht (by omega)
      (by omega)]

/-- C1: after `pad(w, h)` on a plane built by
`new(w >> xdec, h >> ydec, xdec, ydec, xpad, ypad)` (buffer contents `d`
arbitrary), the left border of each visible row equals the sample at
column 0, the right border up to the end of the stride equals the sample
at the last visible column, each of the `origin_y` rows above visible row 0
equals that row over the full stride, and each of the `pad_y` rows below
the last visible row equals that row over the full stride. -/
theorem pad_replicates_borders
    (b w h xdec ydec xpad ypad W H xo yo s : Nat) (d : Nat → Nat) (q : Plane)
    (hW : W = w >>> xdec) (hH : H = h >>> ydec) (hW1 : 1 ≤ W) (hH1 : 1 ≤ H)
    (hxo : xo = alignPowerOfTwo xpad (STRIDE_ALIGNMENT_LOG2 - 1))
    (hyo : yo = ypad)
    (hs : s = alignPowerOfTwo (xo + W + xpad) (STRIDE_ALIGNMENT_LOG2 - 1))
    (hq : q = Plane.pad { Plane.new b W H xdec ydec xpad ypad with data := d } w h) :
    (∀ y, y < H → ∀ j, j < xo →
        q.data ((y + yo) * s + j) = q.data ((y + yo) * s + xo)) ∧
      (∀ y, y < H → ∀ x, W ≤ x → xo + x < s →
        q.data ((y + yo) * s + (xo + x)) = q.data ((y + yo) * s + (xo + (W - 1)))) ∧
      (∀ y, y < yo → ∀ j, j < s →
        q.data (y * s + j) = q.data (yo * s + j)) ∧
      (∀ y, y < ypad → ∀ j, j < s →
        q.data ((yo + H + y) * s + j) = q.data ((yo + H - 1) * s + j)) := by
  have e1 : xo = (Plane.new b W H xdec ydec xpad ypad).cfg.xorigin := hxo
  have e2 : yo = (Plane.new b W H xdec ydec xpad ypad).cfg.yorigin := hyo
  have hWs0 : xo + W ≤ s := by
    have h1 := le_alignPowerOfTwo (xo + W + xpad) (STRIDE_ALIGNMENT_LOG2 - 1)
    omega
  rw [hxo] at hs
  have e3 : s = (Plane.new b W H xdec ydec xpad ypad).cfg.stride := hs
  have hWs : (Plane.new b W H xdec ydec xpad ypad).cfg.xorigin + W
      ≤ (Plane.new b W H xdec ydec xpad ypad).cfg.stride := by
    rw [← e1, ← e3]; exact hWs0
  subst hq
  have hdata : (Plane.pad { Plane.new b W H xdec ydec xpad ypad with data := d } w h).data
      = padBottomPass (Plane.new b W H xdec ydec xpad ypad).cfg (h >>> ydec)
          (padTopPass (Plane.new b W H xdec ydec xpad ypad).cfg
            (padRightPass (Plane.new b W H xdec ydec xpad ypad).cfg
              (w >>> xdec) (h >>> ydec)
              (padLeftPass (Plane.new b W H xdec ydec xpad ypad).cfg
                (h >>> ydec) d))) := rfl
  rw [← hW, ← hH] at hdata
  rw [hdata, e1, e2, e3]
  have e4 : (Plane.new b W H xdec ydec xpad ypad).cfg.alloc_height
      = ypad + H + ypad := rfl
  have e5 : (Plane.new b W H xdec ydec xpad ypad).cfg.yorigin = ypad := rfl
  refine ⟨?_, ?_, ?_, ?_⟩
  · intro y hy j hj
    exact padData_left (Plane.new b W H xdec ydec xpad ypad).cfg W H d hW1 hWs
      y j hy hj
  · intro y hy x hx1 hx2
    exact padData_right (Plane.new b W H xdec ydec xpad ypad).cfg W H d hW1 hWs
      y x hy hx1 hx2
  · intro y hy j hj
    exact padData_top (Plane.new b W H xdec ydec xpad ypad).cfg W H d hH1
      y j hy hj
  · intro y hy j hj
    refine padData_bottom (Plane.new b W H xdec ydec xpad ypad).cfg W H d hH1
      ?_ y j hy hj
    rw [e4, e5]
    omega

/-- C1 witness at `b = 1, w = 4, h = 2, xdec = ydec = 0, xpad = ypad = 2`
(so `W = 4, H = 2, xo = 8, yo = 2, s = 16`), buffer contents `fun i => i`. -/
theorem pad_replicates_borders_witness :
    ((4 : Nat) = 4 >>> 0) ∧ ((2 : Nat) = 2 >>> 0) ∧ (1 : Nat) ≤ 4 ∧ (1 : Nat) ≤ 2 ∧
      ((8 : Nat) = alignPowerOfTwo 2 (STRIDE_ALIGNMENT_LOG2 - 1)) ∧
      ((16 : Nat) = alignPowerOfTwo (8 + 4 + 2) (STRIDE_ALIGNMENT_LOG2 - 1)) ∧
      ((∀ y, y < 2 → ∀ j, j < 8 →
          (Plane.pad { Plane.new 1 4 2 0 0 2 2 with data := fun i => i } 4 2).data
              ((y + 2) * 16 + j)
            = (Plane.pad { Plane.new 1 4 2 0 0 2 2 with data := fun i => i } 4 2).data
                ((y + 2) * 16 + 8)) ∧
        (∀ y, y < 2 → ∀ x, 4 ≤ x → 8 + x < 16 →
          (Plane.pad { Plane.new 1 4 2 0 0 2 2 with data := fun i => i } 4 2).data
              ((y + 2) * 16 + (8 + x))
            = (Plane.pad { Plane.new 1 4 2 0 0 2 2 with data := fun i => i } 4 2).data
                ((y + 2) * 16 + (8 + (4 - 1)))) ∧
        (∀ y, y < 2 → ∀ j, j < 16 →
          (Plane.pad { Plane.new 1 4 2 0 0 2 2 with data := fun i => i } 4 2).data
              (y * 16 + j)
            = (Plane.pad { Plane.new 1 4 2 0 0 2 2 with data := fun i => i } 4 2).data
                (2 * 16 + j)) ∧
        (∀ y, y < 2 → ∀ j, j < 16 →
          (Plane.pad { Plane.new 1 4 2 0 0 2 2 with data := fun i => i } 4 2).data
              ((2 + 2 + y) * 16 + j)
            = (Plane.pad { Plane.new 1 4 2 0 0 2 2 with data := fun i => i } 4 2).data
                ((2 + 2 - 1) * 16 + j))) :=
  ⟨rfl, rfl, by decide, by decide, by decide, by decide,
    pad_replicates_borders 1 4 2 0 0 2 2 4 2 8 2 16 (fun i => i) _
      rfl rfl (by decide) (by decide) (by decide) rfl (by decide) rfl⟩

/-- C10: `pad(w, h)` leaves every visible sample unchanged: for a plane
built by `new(w >> xdec, h >> ydec, xdec, ydec, xpad, ypad)` with buffer
contents `d`, every `p(x, y)` with `x < width`, `y < height` reads the same
value after `pad` as before. -/
theorem pad_preserves_visible
    (b w h xdec ydec xpad ypad W H : Nat) (d : Nat → Nat) (q : Plane)
    (hW : W = w >>> xdec) (hH : H = h >>> ydec) (hW1 : 1 ≤ W) (hH1 : 1 ≤ H)
    (hq : q = Plane.pad { Plane.new b W H xdec ydec xpad ypad with data := d } w h) :
    ∀ x, x < W → ∀ y, y < H →
      q.p x y = Plane.p { Plane.new b W H xdec ydec xpad ypad with data := d } x y := by
  subst hW hH hq
  intro x hx y hy
  have hcs : (Plane.new b (w >>> xdec) (h >>> ydec) xdec ydec xpad ypad).cfg.stride
      = alignPowerOfTwo
          ((Plane.new b (w >>> xdec) (h >>> ydec) xdec ydec xpad ypad).cfg.xorigin
            + (w >>> xdec) + xpad) (STRIDE_ALIGNMENT_LOG2 - 1) := rfl
  have hWs : (Plane.new b (w >>> xdec) (h >>> ydec) xdec ydec xpad ypad).cfg.xorigin
      + (w >>> xdec)
      ≤ (Plane.new b (w >>> xdec) (h >>> ydec) xdec ydec xpad ypad).cfg.stride := by
    have h1 := le_alignPowerOfTwo
      ((Plane.new b (w >>> xdec) (h >>> ydec) xdec ydec xpad ypad).cfg.xorigin
        + (w >>> xdec) + xpad) (STRIDE_ALIGNMENT_LOG2 - 1)
    omega
  show padBottomPass (Plane.new b (w >>> xdec) (h >>> ydec) xdec ydec xpad ypad).cfg
      (h >>> ydec)
      (padTopPass (Plane.new b (w >>> xdec) (h >>> ydec) xdec ydec xpad ypad).cfg
        (padRightPass (Plane.new b (w >>> xdec) (h >>> ydec) xdec ydec xpad ypad).cfg
          (w >>> xdec) (h >>> ydec)
          (padLeftPass (Plane.new b (w >>> xdec) (h >>> ydec) xdec ydec xpad ypad).cfg
            (h >>> ydec) d)))
      ((y + (Plane.new b (w >>> xdec) (h >>> ydec) xdec ydec xpad ypad).cfg.yorigin)
          * (Plane.new b (w >>> xdec) (h >>> ydec) xdec ydec xpad ypad).cfg.stride
        + (x + (Plane.new b (w >>> xdec) (h >>> ydec) xdec ydec xpad ypad).cfg.xorigin))
    = d ((y + (Plane.new b (w >>> xdec) (h >>> ydec) xdec ydec xpad ypad).cfg.yorigin)
          * (Plane.new b (w >>> xdec) (h >>> ydec) xdec ydec xpad ypad).cfg.stride
        + (x + (Plane.new b (w >>> xdec) (h >>> ydec) xdec ydec xpad ypad).cfg.xorigin))
  exact padData_visible (Plane.new b (w >>> xdec) (h >>> ydec) xdec ydec xpad ypad).cfg
    (w >>> xdec) (h >>> ydec) d hW1 hWs x y hx hy

/-- C10 witness at the same concrete geometry as the C1 witness. -/
theorem pad_preserves_visible_witness :
    ((4 : Nat) = 4 >>> 0) ∧ ((2 : Nat) = 2 >>> 0) ∧ (1 : Nat) ≤ 4 ∧ (1 : Nat) ≤ 2 ∧
      ∀ x, x < 4 → ∀ y, y < 2 →
        (Plane.pad { Plane.new 1 4 2 0 0 2 2 with data := fun i => 2 * i } 4 2).p x y
          = Plane.p { Plane.new 1 4 2 0 0 2 2 with data := fun i => 2 * i } x y :=
  ⟨rfl, rfl, by decide, by decide,
    pad_preserves_visible 1 4 2 0 0 2 2 4 2 (fun i => 2 * i) _
      rfl rfl (by decide) (by decide) rfl⟩

/-! ### `Plane::downsample_from` -/

/-- The write loop of `downsample_from`: for each output `(row, col)`,
write the 2x2 box filter of the source at `dst[col]`, where `dst` is the
mutable slice at `PlaneOffset {x: 0, y: row}` (buffer offset
`(row + yorigin) * stride + xorigin`). -/
def downsampleData (p src : Plane) (rows : Nat) : Nat → Nat :=
  (List.range rows).foldl
    (fun f row =>
      (List.range p.cfg.width).foldl
        (fun g col =>
          upd g ((row + p.cfg.yorigin) * p.cfg.stride + p.cfg.xorigin + col)
            (castFrom p.bytes
              ((src.p (2 * col) (2 * row) + src.p (2 * col + 1) (2 * row)
                  + src.p (2 * col) (2 * row + 1)
                  + src.p (2 * col + 1) (2 * row + 1) + 2) >>> 2)))
        f)
    p.data

/-- `Plane::downsample_from`: asserts the exact 2x geometry relation
(modelled as `none` on failure), then box-filters every output pixel. -/
def Plane.downsample_from (p src : Plane) : Option Plane :=
  if p.cfg.width * 2 = src.cfg.width ∧ p.cfg.height * 2 = src.cfg.height then
    some { p with data := downsampleData p src p.cfg.height }
  else none

theorem foldl_upd_out (idx v : Nat → Nat) (f : Nat → Nat) (n i : Nat)
    (h : ∀ k, k < n → i ≠ idx k) :
    ((List.range n).foldl (fun g k => upd g (idx k) (v k)) f) i = f i := by
  induction n with
  | zero => simp [List.range_zero]
  | succ n ih =>
    rw [List.range_succ, List.foldl_append, List.foldl_cons, List.foldl_nil]
    show upd _ (idx n) (v n) i = f i
    simp only [upd]
    rw [if_neg (h n (Nat.lt_succ_self n))]
    exact ih fun k hk => h k (Nat.lt_succ_of_lt hk)

theorem foldl_upd_in (idx v : Nat → Nat) (f : Nat → Nat) (n k : Nat)
    (hk : k < n)
    (hdisj : ∀ j, j < n → j ≠ k → idx k ≠ idx j) :
    ((List.range n).foldl (fun g k => upd g (idx k) (v k)) f) (idx k) = v k := by
  induction n with
  | zero => exact absurd hk (Nat.not_lt_zero k)
  | succ n ih =>
    rw [List.range_succ, List.foldl_append, List.foldl_cons, List.foldl_nil]
    show upd _ (idx n) (v n) (idx k) = v k
    by_cases hkn : k = n
    · subst hkn
      simp [upd]
    · simp only [upd]
      rw [if_neg (hdisj n (Nat.lt_succ_self n) fun hne => hkn hne.symm)]
      exact ih (Nat.lt_of_le_of_ne (Nat.le_of_lt_succ hk) hkn)
        fun j h1 h2 => hdisj j (Nat.lt_succ_of_lt h1) h2

theorem idx_ne_of_row_ne {s xo r1 r2 c1 c2 : Nat} (h1 : xo + c1 < s)
    (h2 : xo + c2 < s) (hr : r1 ≠ r2) :
    r1 * s + xo + c1 ≠ r2 * s + xo + c2 := by
  intro heq
  have heq' : r1 * s + (xo + c1) = r2 * s + (xo + c2) := by omega
  obtain ⟨ha, -⟩ := row_col_eq h1 h2 heq'
  exact hr ha

theorem downsampleData_apply (p src : Plane) (rows : Nat)
    (hWs : p.cfg.xorigin + p.cfg.width ≤ p.cfg.stride)
    (row col : Nat) (hrow : row < rows) (hcol : col < p.cfg.width) :
    downsampleData p src rows
        ((row + p.cfg.yorigin) * p.cfg.stride + p.cfg.xorigin + col)
      = castFrom p.bytes
          ((src.p (2 * col) (2 * row) + src.p (2 * col + 1) (2 * row)
              + src.p (2 * col) (2 * row + 1)
              + src.p (2 * col + 1) (2 * row + 1) + 2) >>> 2) := by
  unfold downsampleData
  induction rows with
  | zero => exact absurd hrow (Nat.not_lt_zero row)
  | succ n ih =>
    rw [List.range_succ, List.foldl_append, List.foldl_cons, List.foldl_nil]
    by_cases hrn : row = n
    · subst hrn
      exact foldl_upd_in
        (fun col => (row + p.cfg.yorigin) * p.cfg.stride + p.cfg.xorigin + col)
        (fun col => castFrom p.bytes
          ((src.p (2 * col) (2 * row) + src.p (2 * col + 1) (2 * row)
              + src.p (2 * col) (2 * row + 1)
              + src.p (2 * col + 1) (2 * row + 1) + 2) >>> 2))
        _ p.cfg.width col hcol
        (fun j hj hne => by beta_reduce; omega)
    · have hrow' : row < n := Nat.lt_of_le_of_ne (Nat.le_of_lt_succ hrow) hrn
      rw [foldl_upd_out
        (fun col => (n + p.cfg.yorigin) * p.cfg.stride + p.cfg.xorigin + col)
        (fun col => castFrom p.bytes
          ((src.p (2 * col) (2 * n) + src.p (2 * col + 1) (2 * n)
              + src.p (2 * col) (2 * n + 1)
              + src.p (2 * col + 1) (2 * n + 1) + 2) >>> 2))
        _ p.cfg.width
        ((row + p.cfg.yorigin) * p.cfg.stride + p.cfg.xorigin + col)
        (fun j hj => by
          beta_reduce
          exact idx_ne_of_row_ne (by omega) (by omega) (by omega))]
      exact ih hrow'

/-- C2: whenever `self.width * 2 == src.width` and
`self.height * 2 == src.height`, `downsample_from` sets every in-range
output pixel to `(src[2x,2y] + src[2x+1,2y] + src[2x,2y+1] + src[2x+1,2y+1]
+ 2) >> 2`; if either dimension relation fails the operation stops fatally
(`none`) instead of returning a plane.  `hb` is the type invariant that the
source samples fit the pixel type. -/
theorem downsample_from_box_filter (p src : Plane)
    (hb : ∀ i, src.data i < 2 ^ (8 * p.bytes))
    (hWs : p.cfg.xorigin + p.cfg.width ≤ p.cfg.stride) :
    (¬ (p.cfg.width * 2 = src.cfg.width ∧ p.cfg.height * 2 = src.cfg.height) →
        p.downsample_from src = none) ∧
      ((p.cfg.width * 2 = src.cfg.width ∧ p.cfg.height * 2 = src.cfg.height) →
        ∃ q, p.downsample_from src = some q ∧
          ∀ x, x < p.cfg.width → ∀ y, y < p.cfg.height →
            q.p x y
              = (src.p (2 * x) (2 * y) + src.p (2 * x + 1) (2 * y)
                  + src.p (2 * x) (2 * y + 1) + src.p (2 * x + 1) (2 * y + 1)
                  + 2) >>> 2) := by
  constructor
  · intro hnot
    unfold Plane.downsample_from
    rw [if_neg hnot]
  · intro hdims
    refine ⟨{ p with data := downsampleData p src p.cfg.height }, ?_, ?_⟩
    · unfold Plane.downsample_from
      rw [if_pos hdims]
    · intro x hx y hy
      show downsampleData p src p.cfg.height
          ((y + p.cfg.yorigin) * p.cfg.stride + (x + p.cfg.xorigin))
        = _
      have hidx : (y + p.cfg.yorigin) * p.cfg.stride + (x + p.cfg.xorigin)
          = (y + p.cfg.yorigin) * p.cfg.stride + p.cfg.xorigin + x := by omega
      rw [hidx, downsampleData_apply p src p.cfg.height hWs y x hy hx]
      have h1 : src.p (2 * x) (2 * y) < 2 ^ (8 * p.bytes) := hb _
      have h2 : src.p (2 * x + 1) (2 * y) < 2 ^ (8 * p.bytes) := hb _
      have h3 : src.p (2 * x) (2 * y + 1) < 2 ^ (8 * p.bytes) := hb _
      have h4 : src.p (2 * x + 1) (2 * y + 1) < 2 ^ (8 * p.bytes) := hb _
      have hv : (src.p (2 * x) (2 * y) + src.p (2 * x + 1) (2 * y)
          + src.p (2 * x) (2 * y + 1) + src.p (2 * x + 1) (2 * y + 1) + 2) >>> 2
          < 2 ^ (8 * p.bytes) := by
        rw [Nat.shiftRight_eq_div_pow, show (2 : Nat) ^ 2 = 4 from rfl,
          Nat.div_lt_iff_lt_mul (by decide : (0 : Nat) < 4)]
        omega
      unfold castFrom
      exact Nat.mod_eq_of_lt hv

/-- C2 witness: a 1x1 destination plane downsampled from a 2x2 source. -/
theorem downsample_from_box_filter_witness :
    (∀ i, (Plane.new 1 2 2 0 0 0 0).data i
        < 2 ^ (8 * (Plane.new 1 1 1 0 0 0 0).bytes)) ∧
      ((Plane.new 1 1 1 0 0 0 0).cfg.xorigin + (Plane.new 1 1 1 0 0 0 0).cfg.width
          ≤ (Plane.new 1 1 1 0 0 0 0).cfg.stride) ∧
      ((¬ ((Plane.new 1 1 1 0 0 0 0).cfg.width * 2 = (Plane.new 1 2 2 0 0 0 0).cfg.width
            ∧ (Plane.new 1 1 1 0 0 0 0).cfg.height * 2
                = (Plane.new 1 2 2 0 0 0 0).cfg.height) →
          (Plane.new 1 1 1 0 0 0 0).downsample_from (Plane.new 1 2 2 0 0 0 0) = none) ∧
        (((Plane.new 1 1 1 0 0 0 0).cfg.width * 2 = (Plane.new 1 2 2 0 0 0 0).cfg.width
            ∧ (Plane.new 1 1 1 0 0 0 0).cfg.height * 2
                = (Plane.new 1 2 2 0 0 0 0).cfg.height) →
          ∃ q, (Plane.new 1 1 1 0 0 0 0).downsample_from (Plane.new 1 2 2 0 0 0 0)
              = some q ∧
            ∀ x, x < (Plane.new 1 1 1 0 0 0 0).cfg.width →
              ∀ y, y < (Plane.new 1 1 1 0 0 0 0).cfg.height →
                q.p x y
                  = ((Plane.new 1 2 2 0 0 0 0).p (2 * x) (2 * y)
                      + (Plane.new 1 2 2 0 0 0 0).p (2 * x + 1) (2 * y)
                      + (Plane.new 1 2 2 0 0 0 0).p (2 * x) (2 * y + 1)
                      + (Plane.new 1 2 2 0 0 0 0).p (2 * x + 1) (2 * y + 1)
                      + 2) >>> 2)) :=
  ⟨fun i => by
      show castFrom 1 128 < 2 ^ (8 * 1)
      decide,
    by decide,
    downsample_from_box_filter (Plane.new 1 1 1 0 0 0 0) (Plane.new 1 2 2 0 0 0 0)
      (fun i => by
        show castFrom 1 128 < 2 ^ (8 * 1)
        decide)
      (by decide)⟩

/-! ### `Plane::copy_from_raw_u8`

The iterator pipeline `data_origin_mut().chunks_mut(stride).zip(source.chunks
(source_stride))` is modelled arithmetically: chunk `k` of a length-`L`
sequence cut into pieces of `n` covers positions `[k*n, k*n + min n (L - k*n))`,
and there are `ceil(L/n)` chunks; the zip processes
`min (ceil(L_self/stride)) (ceil(L_src/source_stride))` chunk pairs.
Panics map to `none`: `chunks` with a zero chunk size, the `assert!` on
`size_of::<T>()` for bytewidth 2 (checked before any pair of the first
zipped row is processed), and the `bytes[1]` access falling on a trailing
odd-sized source chunk reached by the zip. -/

/-- `ceil(a / b)`. -/
def ceilDiv (a b : Nat) : Nat := (a + b - 1) / b

/-- The bytewidth-1 write loops: row `k` writes pixel `i` of its chunk from
source byte `k * source_stride + i`, over the zipped length of the two
row chunks. -/
def copyData1 (p : Plane) (source : List Nat) (ss rows : Nat) : Nat → Nat :=
  (List.range rows).foldl
    (fun f k =>
      (List.range
          (min (min p.cfg.stride (p.dataLen - p.index 0 0 - k * p.cfg.stride))
            (min ss (source.length - k * ss)))).foldl
        (fun g i =>
          upd g (p.index 0 0 + k * p.cfg.stride + i)
            (castFrom p.bytes (source.getD (k * ss + i) 0)))
        f)
    p.data

/-- The bytewidth-2 write loops: row `k` writes pixel `j` of its chunk from
the little-endian pair of source bytes at `k * source_stride + 2*j`, over
the zip of the pixel chunk against the source row's byte pairs. -/
def copyData2 (p : Plane) (source : List Nat) (ss rows : Nat) : Nat → Nat :=
  (List.range rows).foldl
    (fun f k =>
      (List.range
          (min (min p.cfg.stride (p.dataLen - p.index 0 0 - k * p.cfg.stride))
            ((min ss (source.length - k * ss) + 1) / 2))).foldl
        (fun g j =>
          upd g (p.index 0 0 + k * p.cfg.stride + j)
            (castFrom p.bytes
              (source.getD (k * ss + 2 * j + 1) 0 <<< 8
                ||| source.getD (k * ss + 2 * j) 0)))
        f)
    p.data

/-- `bytes[1]` out-of-range: some zipped row has an odd-sized source chunk
whose final 1-byte piece is reached by the zip against the pixel chunk. -/
def oddChunkPanic (p : Plane) (source : List Nat) (ss rows : Nat) : Bool :=
  (List.range rows).any fun k =>
    decide (min ss (source.length - k * ss) % 2 = 1 ∧
      (min ss (source.length - k * ss) + 1) / 2
        ≤ min p.cfg.stride (p.dataLen - p.index 0 0 - k * p.cfg.stride))

/-- `Plane::copy_from_raw_u8`. -/
def Plane.copy_from_raw_u8 (p : Plane) (source : List Nat)
    (source_stride source_bytewidth : Nat) : Option Plane :=
  if p.cfg.stride = 0 ∨ source_stride = 0 then none
  else if source_bytewidth = 1 then
    some { p with data :=
      (copyData1 p source source_stride
        (min (ceilDiv (p.dataLen - p.index 0 0) p.cfg.stride)
          (ceilDiv source.length source_stride))) }
  else if source_bytewidth = 2 then
    if p.bytes < 2 ∧ 0 < min (ceilDiv (p.dataLen - p.index 0 0) p.cfg.stride)
        (ceilDiv source.length source_stride) then none
    else if oddChunkPanic p source source_stride
        (min (ceilDiv (p.dataLen - p.index 0 0) p.cfg.stride)
          (ceilDiv source.length source_stride)) then none
    else
      some { p with data :=
        (copyData2 p source source_stride
          (min (ceilDiv (p.dataLen - p.index 0 0) p.cfg.stride)
            (ceilDiv source.length source_stride))) }
  else some p

theorem off_idx_ne {s o k1 k2 i1 i2 : Nat} (h1 : i1 < s) (h2 : i2 < s)
    (hne : k1 ≠ k2 ∨ i1 ≠ i2) : o + k1 * s + i1 ≠ o + k2 * s + i2 := by
  intro heq
  have heq' : k1 * s + i1 = k2 * s + i2 := by omega
  obtain ⟨hk, hi⟩ := row_col_eq h1 h2 heq'
  omega

theorem copyData1_apply (p : Plane) (source : List Nat) (ss rows : Nat)
    (y x : Nat) (hy : y < rows)
    (hx : x < min (min p.cfg.stride (p.dataLen - p.index 0 0 - y * p.cfg.stride))
        (min ss (source.length - y * ss))) :
    copyData1 p source ss rows (p.index 0 0 + y * p.cfg.stride + x)
      = castFrom p.bytes (source.getD (y * ss + x) 0) := by
  unfold copyData1
  induction rows with
  | zero => exact absurd hy (Nat.not_lt_zero y)
  | succ n ih =>
    rw [List.range_succ, List.foldl_append, List.foldl_cons, List.foldl_nil]
    by_cases hyn : y = n
    · subst hyn
      exact foldl_upd_in
        (fun i => p.index 0 0 + y * p.cfg.stride + i)
        (fun i => castFrom p.bytes (source.getD (y * ss + i) 0)) _ _ x hx
        (fun j hj hne => by beta_reduce; omega)
    · have hy' : y < n := Nat.lt_of_le_of_ne (Nat.le_of_lt_succ hy) hyn
      rw [foldl_upd_out
        (fun i => p.index 0 0 + n * p.cfg.stride + i)
        (fun i => castFrom p.bytes (source.getD (n * ss + i) 0)) _ _
        (p.index 0 0 + y * p.cfg.stride + x)
        (fun j hj => by
          beta_reduce
          exact off_idx_ne (by omega) (by omega) (by omega))]
      exact ih hy'

theorem copyData1_out (p : Plane) (source : List Nat) (ss rows : Nat) (i : Nat)
    (h : ∀ k, k < rows →
      ∀ j, j < min (min p.cfg.stride (p.dataLen - p.index 0 0 - k * p.cfg.stride))
          (min ss (source.length - k * ss)) →
        i ≠ p.index 0 0 + k * p.cfg.stride + j) :
    copyData1 p source ss rows i = p.data i := by
  unfold copyData1
  induction rows with
  | zero => simp [List.range_zero]
  | succ n ih =>
    rw [List.range_succ, List.foldl_append, List.foldl_cons, List.foldl_nil]
    rw [foldl_upd_out
      (fun j => p.index 0 0 + n * p.cfg.stride + j)
      (fun j => castFrom p.bytes (source.getD (n * ss + j) 0)) _ _ i
      (fun j hj => h n (Nat.lt_succ_self n) j hj)]
    exact ih fun k hk => h k (Nat.lt_succ_of_lt hk)

theorem copyData2_apply (p : Plane) (source : List Nat) (ss rows : Nat)
    (y x : Nat) (hy : y < rows)
    (hx : x < min (min p.cfg.stride (p.dataLen - p.index 0 0 - y * p.cfg.stride))
        ((min ss (source.length - y * ss) + 1) / 2)) :
    copyData2 p source ss rows (p.index 0 0 + y * p.cfg.stride + x)
      = castFrom p.bytes
          (source.getD (y * ss + 2 * x + 1) 0 <<< 8
            ||| source.getD (y * ss + 2 * x) 0) := by
  unfold copyData2
  induction rows with
  | zero => exact absurd hy (Nat.not_lt_zero y)
  | succ n ih =>
    rw [List.range_succ, List.foldl_append, List.foldl_cons, List.foldl_nil]
    by_cases hyn : y = n
    · subst hyn
      exact foldl_upd_in
        (fun j => p.index 0 0 + y * p.cfg.stride + j)
        (fun j => castFrom p.bytes
          (source.getD (y * ss + 2 * j + 1) 0 <<< 8
            ||| source.getD (y * ss + 2 * j) 0)) _ _ x hx
        (fun j hj hne => by beta_reduce; omega)
    · have hy' : y < n := Nat.lt_of_le_of_ne (Nat.le_of_lt_succ hy) hyn
      rw [foldl_upd_out
        (fun j => p.index 0 0 + n * p.cfg.stride + j)
        (fun j => castFrom p.bytes
          (source.getD (n * ss + 2 * j + 1) 0 <<< 8
            ||| source.getD (n * ss + 2 * j) 0)) _ _
        (p.index 0 0 + y * p.cfg.stride + x)
        (fun j hj => by
          beta_reduce
          exact off_idx_ne (by omega) (by omega) (by omega))]
      exact ih hy'

theorem copyData2_out (p : Plane) (source : List Nat) (ss rows : Nat) (i : Nat)
    (h : ∀ k, k < rows →
      ∀ j, j < min (min p.cfg.stride (p.dataLen - p.index 0 0 - k * p.cfg.stride))
          ((min ss (source.length - k * ss) + 1) / 2) →
        i ≠ p.index 0 0 + k * p.cfg.stride + j) :
    copyData2 p source ss rows i = p.data i := by
  unfold copyData2
  induction rows with
  | zero => simp [List.range_zero]
  | succ n ih =>
    rw [List.range_succ, List.foldl_append, List.foldl_cons, List.foldl_nil]
    rw [foldl_upd_out
      (fun j => p.index 0 0 + n * p.cfg.stride + j)
      (fun j => castFrom p.bytes
        (source.getD (n * ss + 2 * j + 1) 0 <<< 8
          ||| source.getD (n * ss + 2 * j) 0)) _ _ i
      (fun j hj => h n (Nat.lt_succ_self n) j hj)]
    exact ih fun k hk => h k (Nat.lt_succ_of_lt hk)

/-! ### Geometry facts feeding the `copy_from_raw_u8` theorems -/

theorem ceilDiv_mul (H ss : Nat) (hss : 0 < ss) : ceilDiv (ss * H) ss = H := by
  unfold ceilDiv
  have h2 : ss * H + ss - 1 = H * ss + (ss - 1) := by
    rw [Nat.mul_comm]; omega
  rw [h2]
  exact (div_mod_of_decomp (by omega)).1

theorem ceilDiv_le_of_le (a ss H : Nat) (hss : 0 < ss) (h : a ≤ ss * H) :
    ceilDiv a ss ≤ H := by
  unfold ceilDiv
  rw [Nat.div_le_iff_le_mul_add_pred hss]
  have h3 : ss * H = H * ss := Nat.mul_comm ss H
  omega

theorem selfLen_row_ge (s ah yo xo W H y : Nat) (hWs : xo + W ≤ s)
    (hah : yo + H ≤ ah) (hy : y < H) :
    W ≤ s * ah - (yo * s + xo) - y * s := by
  have h1 : (yo + y + 1) * s ≤ ah * s := Nat.mul_le_mul_right s (by omega)
  have h2 : (yo + y + 1) * s = yo * s + y * s + s := by ring
  have h3 : s * ah = ah * s := Nat.mul_comm s ah
  omega

theorem ceilDiv_self_ge (s ah yo xo H : Nat) (h0 : 0 < s) (hxos : xo < s)
    (hah : yo + H ≤ ah) :
    H ≤ ceilDiv (s * ah - (yo * s + xo)) s := by
  unfold ceilDiv
  rw [Nat.le_div_iff_mul_le h0]
  have h1 : (yo + H) * s ≤ ah * s := Nat.mul_le_mul_right s hah
  have h2 : (yo + H) * s = yo * s + H * s := by ring
  have h3 : s * ah = ah * s := Nat.mul_comm s ah
  omega

theorem getD_lt_of_forall {l : List Nat} {M : Nat} (hM : 0 < M)
    (hb : ∀ v ∈ l, v < M) (n : Nat) : l.getD n 0 < M := by
  rcases Nat.lt_or_ge n l.length with h | h
  · rw [List.getD_eq_getElem l 0 h]
    exact hb _ (List.getElem_mem h)
  · rw [List.getD_eq_default l 0 h]
    exact hM

/-! ### C9: unsupported byte widths are a silent no-op -/

/-- C9: for any bytewidth other than 1 or 2 (with well-formed strides),
`copy_from_raw_u8` writes nothing: the result is the unchanged plane,
with no error signalled. -/
theorem copy_other_bytewidth_noop (p : Plane) (source : List Nat)
    (ss bw : Nat) (h0 : 0 < p.cfg.stride) (hss : 0 < ss)
    (h1 : bw ≠ 1) (h2 : bw ≠ 2) :
    p.copy_from_raw_u8 source ss bw = some p := by
  unfold Plane.copy_from_raw_u8
  rw [if_neg (by omega), if_neg h1, if_neg h2]

/-- C9 witness at `bw = 3` on a concrete plane and source. -/
theorem copy_other_bytewidth_noop_witness :
    0 < (Plane.new 1 4 2 0 0 2 2).cfg.stride ∧ (0 : Nat) < 4 ∧ (3 : Nat) ≠ 1 ∧ (3 : Nat) ≠ 2 ∧
      (Plane.new 1 4 2 0 0 2 2).copy_from_raw_u8 [7, 7, 7, 7] 4 3
        = some (Plane.new 1 4 2 0 0 2 2) :=
  ⟨by decide, by decide, by decide, by decide,
    copy_other_bytewidth_noop (Plane.new 1 4 2 0 0 2 2) [7, 7, 7, 7] 4 3
      (by decide) (by decide) (by decide) (by decide)⟩

/-! ### C6: which samples does `copy_from_raw_u8` write? -/

/-- C6 counterexample: on a 1x1 plane (visible buffer index 0 only), copying
a 2-byte source row with bytewidth 1 also writes buffer index 1 — stride
padding outside the visible region — because the zip copies
`min(row_chunk_len, source_row_len)` samples per row, not `width`. -/
theorem copy_outside_visible_cex :
    (∀ x, x < 1 → ∀ y, y < 1 → Plane.index (Plane.new 1 1 1 0 0 0 0) x y ≠ 1) ∧
      1 < (Plane.new 1 1 1 0 0 0 0).dataLen ∧
      ¬ (∀ q, (Plane.new 1 1 1 0 0 0 0).copy_from_raw_u8 [1, 2] 2 1 = some q →
          q.data 1 = (Plane.new 1 1 1 0 0 0 0).data 1) := by
  refine ⟨by decide, by decide, ?_⟩
  intro hall
  have h2 : ((Plane.new 1 1 1 0 0 0 0).copy_from_raw_u8 [1, 2] 2 1).map
      (fun q => q.data 1) = some 2 := by decide
  rcases hcopy : (Plane.new 1 1 1 0 0 0 0).copy_from_raw_u8 [1, 2] 2 1 with _ | q
  · rw [hcopy] at h2
    exact absurd h2 (by simp)
  · have h3 := hall q hcopy
    rw [hcopy] at h2
    have h4 : (Plane.new 1 1 1 0 0 0 0).data 1 = 128 := by decide
    have h5 : q.data 1 = 2 := by
      have := h2
      simp only [Option.map_some'] at this
      exact Option.some.inj this
    omega

/-- C6 (amended): `copy_from_raw_u8` writes only samples inside the visible
region provided the source supplies at most `height` rows
(`source.length ≤ source_stride * height`) and each row at most `width`
samples (`source_stride ≤ source_bytewidth * width`): under these bounds,
whenever the call returns a plane, every sample outside the visible
`width x height` rectangle — border columns, border rows and stride
padding — is unchanged. -/
theorem copy_only_visible_bounded (p : Plane) (source : List Nat) (ss bw : Nat)
    (h0 : 0 < p.cfg.stride) (hss : 0 < ss)
    (hWs : p.cfg.xorigin + p.cfg.width ≤ p.cfg.stride)
    (hrows : source.length ≤ ss * p.cfg.height)
    (hsamp : ss ≤ bw * p.cfg.width) :
    ∀ q, p.copy_from_raw_u8 source ss bw = some q →
      ∀ a t, t < p.cfg.stride →
        (a < p.cfg.yorigin ∨ p.cfg.yorigin + p.cfg.height ≤ a
          ∨ t < p.cfg.xorigin ∨ p.cfg.xorigin + p.cfg.width ≤ t) →
        q.data (a * p.cfg.stride + t) = p.data (a * p.cfg.stride + t) := by
  intro q hq a t ht hout
  have hceil : ceilDiv source.length ss ≤ p.cfg.height :=
    ceilDiv_le_of_le _ _ _ hss hrows
  have hio : p.index 0 0 = p.cfg.yorigin * p.cfg.stride + p.cfg.xorigin := by
    simp [Plane.index]
  unfold Plane.copy_from_raw_u8 at hq
  rw [if_neg (by omega)] at hq
  by_cases hb1 : bw = 1
  · rw [if_pos hb1] at hq
    obtain rfl := Option.some.inj hq
    show copyData1 p source ss _ (a * p.cfg.stride + t) = p.data _
    apply copyData1_out
    intro k hk j hj
    have hj' : j < p.cfg.width := by
      subst hb1
      omega
    have hk' : k < p.cfg.height := by omega
    have hidx : p.index 0 0 + k * p.cfg.stride + j
        = (p.cfg.yorigin + k) * p.cfg.stride + (p.cfg.xorigin + j) := by
      rw [hio]; ring
    rw [hidx]
    intro heq
    obtain ⟨ha, ht2⟩ := row_col_eq ht (by omega) heq
    omega
  · by_cases hb2 : bw = 2
    · rw [if_neg hb1, if_pos hb2] at hq
      by_cases hc1 : p.bytes < 2 ∧ 0 < min (ceilDiv (p.dataLen - p.index 0 0) p.cfg.stride)
          (ceilDiv source.length ss)
      · rw [if_pos hc1] at hq
        exact absurd hq (by simp)
      · rw [if_neg hc1] at hq
        by_cases hc2 : oddChunkPanic p source ss
            (min (ceilDiv (p.dataLen - p.index 0 0) p.cfg.stride)
              (ceilDiv source.length ss)) = true
        · rw [if_pos hc2] at hq
          exact absurd hq (by simp)
        · rw [if_neg hc2] at hq
          obtain rfl := Option.some.inj hq
          show copyData2 p source ss _ (a * p.cfg.stride + t) = p.data _
          apply copyData2_out
          intro k hk j hj
          have hj' : j < p.cfg.width := by
            subst hb2
            omega
          have hk' : k < p.cfg.height := by omega
          have hidx : p.index 0 0 + k * p.cfg.stride + j
              = (p.cfg.yorigin + k) * p.cfg.stride + (p.cfg.xorigin + j) := by
            rw [hio]; ring
          rw [hidx]
          intro heq
          obtain ⟨ha, ht2⟩ := row_col_eq ht (by omega) heq
          omega
    · rw [if_neg hb1, if_neg hb2] at hq
      obtain rfl := Option.some.inj hq
      rfl

/-- C6 witness: a 4x2 plane ingesting exactly 2 rows of 4 one-byte samples. -/
theorem copy_only_visible_bounded_witness :
    0 < (Plane.new 1 4 2 0 0 2 2).cfg.stride ∧ (0 : Nat) < 4 ∧
      (Plane.new 1 4 2 0 0 2 2).cfg.xorigin + (Plane.new 1 4 2 0 0 2 2).cfg.width
          ≤ (Plane.new 1 4 2 0 0 2 2).cfg.stride ∧
      (List.length [1, 2, 3, 4, 5, 6, 7, 8] : Nat) ≤ 4 * (Plane.new 1 4 2 0 0 2 2).cfg.height ∧
      (4 : Nat) ≤ 1 * (Plane.new 1 4 2 0 0 2 2).cfg.width ∧
      (∀ q, (Plane.new 1 4 2 0 0 2 2).copy_from_raw_u8 [1, 2, 3, 4, 5, 6, 7, 8] 4 1
          = some q →
        ∀ a t, t < (Plane.new 1 4 2 0 0 2 2).cfg.stride →
          (a < (Plane.new 1 4 2 0 0 2 2).cfg.yorigin
            ∨ (Plane.new 1 4 2 0 0 2 2).cfg.yorigin + (Plane.new 1 4 2 0 0 2 2).cfg.height ≤ a
            ∨ t < (Plane.new 1 4 2 0 0 2 2).cfg.xorigin
            ∨ (Plane.new 1 4 2 0 0 2 2).cfg.xorigin + (Plane.new 1 4 2 0 0 2 2).cfg.width ≤ t) →
          q.data (a * (Plane.new 1 4 2 0 0 2 2).cfg.stride + t)
            = (Plane.new 1 4 2 0 0 2 2).data (a * (Plane.new 1 4 2 0 0 2 2).cfg.stride + t)) :=
  ⟨by decide, by decide, by decide, by decide, by decide,
    copy_only_visible_bounded (Plane.new 1 4 2 0 0 2 2) [1, 2, 3, 4, 5, 6, 7, 8] 4 1
      (by decide) (by decide) (by decide) (by decide) (by decide)⟩

/-! ### C5: ingestion values -/

/-- C5: with a source of exactly `height` rows of `source_stride` bytes,
each row holding at least `width` samples, bytewidth 1 sets every visible
sample to the (value-preserving) cast of the source byte at
`y * source_stride + x`; bytewidth 2 assembles the little-endian 16-bit
value `low | (high << 8)` from the byte pair at `y * source_stride + 2x`,
and stops fatally (`none`) when the sample type is narrower than 16 bits. -/
theorem copy_from_raw_u8_values (p : Plane) (source : List Nat) (ss : Nat)
    (h0 : 0 < p.cfg.stride) (hss : 0 < ss)
    (hWs : p.cfg.xorigin + p.cfg.width ≤ p.cfg.stride)
    (hlen : p.dataLen = p.cfg.stride * p.cfg.alloc_height)
    (hah : p.cfg.yorigin + p.cfg.height ≤ p.cfg.alloc_height)
    (hsl : source.length = ss * p.cfg.height)
    (hb : ∀ v ∈ source, v < 256) :
    (p.cfg.width ≤ ss ∧ 1 ≤ p.bytes →
      ∃ q, p.copy_from_raw_u8 source ss 1 = some q ∧
        ∀ x, x < p.cfg.width → ∀ y, y < p.cfg.height →
          q.p x y = source.getD (y * ss + x) 0) ∧
      (2 * p.cfg.width ≤ ss ∧ ss % 2 = 0 ∧ p.bytes = 2 →
        ∃ q, p.copy_from_raw_u8 source ss 2 = some q ∧
          ∀ x, x < p.cfg.width → ∀ y, y < p.cfg.height →
            q.p x y = source.getD (y * ss + 2 * x) 0
              ||| source.getD (y * ss + 2 * x + 1) 0 <<< 8) ∧
      (p.bytes < 2 ∧ 1 ≤ p.cfg.width ∧ 1 ≤ p.cfg.height →
        p.copy_from_raw_u8 source ss 2 = none) := by
  have hio : p.index 0 0 = p.cfg.yorigin * p.cfg.stride + p.cfg.xorigin := by
    simp [Plane.index]
  have hceilsrc : ceilDiv source.length ss = p.cfg.height := by
    rw [hsl]; exact ceilDiv_mul _ _ hss
  refine ⟨?_, ?_, ?_⟩
  · rintro ⟨hwss, hb1⟩
    unfold Plane.copy_from_raw_u8
    rw [if_neg (by omega), if_pos rfl]
    refine ⟨_, rfl, ?_⟩
    intro x hx y hy
    show copyData1 p source ss
        (min (ceilDiv (p.dataLen - p.index 0 0) p.cfg.stride)
          (ceilDiv source.length ss))
        ((y + p.cfg.yorigin) * p.cfg.stride + (x + p.cfg.xorigin))
      = _
    have hxos : p.cfg.xorigin < p.cfg.stride := by omega
    have hrowsge : p.cfg.height ≤ ceilDiv (p.dataLen - p.index 0 0) p.cfg.stride := by
      rw [hlen, hio]
      exact ceilDiv_self_ge _ _ _ _ _ h0 hxos hah
    have hy' : y < min (ceilDiv (p.dataLen - p.index 0 0) p.cfg.stride)
        (ceilDiv source.length ss) := by
      rw [hceilsrc]; omega
    have hsc : p.cfg.width ≤ min p.cfg.stride (p.dataLen - p.index 0 0 - y * p.cfg.stride) := by
      rw [hlen, hio]
      have := selfLen_row_ge p.cfg.stride p.cfg.alloc_height p.cfg.yorigin
        p.cfg.xorigin p.cfg.width p.cfg.height y hWs hah hy
      omega
    have hrc : p.cfg.width ≤ min ss (source.length - y * ss) := by
      rw [hsl]
      have h1 : ss * (y + 1) ≤ ss * p.cfg.height := Nat.mul_le_mul_left ss (by omega)
      have h2 : ss * (y + 1) = ss * y + ss := by ring
      have h3 : y * ss = ss * y := Nat.mul_comm y ss
      omega
    have hidx : (y + p.cfg.yorigin) * p.cfg.stride + (x + p.cfg.xorigin)
        = p.index 0 0 + y * p.cfg.stride + x := by rw [hio]; ring
    rw [hidx, copyData1_apply p source ss _ y x hy' (by omega)]
    have hv : source.getD (y * ss + x) 0 < 256 := getD_lt_of_forall (by decide) hb _
    have h256 : (256 : Nat) ≤ 2 ^ (8 * p.bytes) := by
      calc (256 : Nat) = 2 ^ 8 := by decide
        _ ≤ 2 ^ (8 * p.bytes) := Nat.pow_le_pow_right (by decide) (by omega)
    unfold castFrom
    exact Nat.mod_eq_of_lt (by omega)
  · rintro ⟨hwss, heven, hbyt⟩
    unfold Plane.copy_from_raw_u8
    rw [if_neg (by omega), if_neg (by decide), if_pos rfl,
      if_neg (by rintro ⟨hc, -⟩; omega)]
    have hpanic : ¬ (oddChunkPanic p source ss
        (min (ceilDiv (p.dataLen - p.index 0 0) p.cfg.stride)
          (ceilDiv source.length ss)) = true) := by
      unfold oddChunkPanic
      rw [List.any_eq_true]
      rintro ⟨k, hkmem, hdec⟩
      rw [List.mem_range] at hkmem
      have hP := of_decide_eq_true hdec
      have hk' : k < p.cfg.height := by rw [hceilsrc] at hkmem; omega
      have hsck : min ss (source.length - k * ss) = ss := by
        rw [hsl]
        have h1 : ss * (k + 1) ≤ ss * p.cfg.height := Nat.mul_le_mul_left ss (by omega)
        have h2 : ss * (k + 1) = ss * k + ss := by ring
        have h3 : k * ss = ss * k := Nat.mul_comm k ss
        omega
      rw [hsck] at hP
      omega
    rw [if_neg hpanic]
    refine ⟨_, rfl, ?_⟩
    intro x hx y hy
    show copyData2 p source ss
        (min (ceilDiv (p.dataLen - p.index 0 0) p.cfg.stride)
          (ceilDiv source.length ss))
        ((y + p.cfg.yorigin) * p.cfg.stride + (x + p.cfg.xorigin))
      = _
    have hxos : p.cfg.xorigin < p.cfg.stride := by omega
    have hrowsge : p.cfg.height ≤ ceilDiv (p.dataLen - p.index 0 0) p.cfg.stride := by
      rw [hlen, hio]
      exact ceilDiv_self_ge _ _ _ _ _ h0 hxos hah
    have hy' : y < min (ceilDiv (p.dataLen - p.index 0 0) p.cfg.stride)
        (ceilDiv source.length ss) := by
      rw [hceilsrc]; omega
    have hsc : p.cfg.width ≤ min p.cfg.stride (p.dataLen - p.index 0 0 - y * p.cfg.stride) := by
      rw [hlen, hio]
      have := selfLen_row_ge p.cfg.stride p.cfg.alloc_height p.cfg.yorigin
        p.cfg.xorigin p.cfg.width p.cfg.height y hWs hah hy
      omega
    have hsrcy : min ss (source.length - y * ss) = ss := by
      rw [hsl]
      have h1 : ss * (y + 1) ≤ ss * p.cfg.height := Nat.mul_le_mul_left ss (by omega)
      have h2 : ss * (y + 1) = ss * y + ss := by ring
      have h3 : y * ss = ss * y := Nat.mul_comm y ss
      omega
    have hidx : (y + p.cfg.yorigin) * p.cfg.stride + (x + p.cfg.xorigin)
        = p.index 0 0 + y * p.cfg.stride + x := by rw [hio]; ring
    rw [hidx, copyData2_apply p source ss _ y x hy' (by rw [hsrcy]; omega)]
    have hhi : source.getD (y * ss + 2 * x + 1) 0 < 256 :=
      getD_lt_of_forall (by decide) hb _
    have hlo : source.getD (y * ss + 2 * x) 0 < 256 :=
      getD_lt_of_forall (by decide) hb _
    have hsh : source.getD (y * ss + 2 * x + 1) 0 <<< 8
        = source.getD (y * ss + 2 * x + 1) 0 * 256 := by
      rw [Nat.shiftLeft_eq]
    have h65536 : (2 : Nat) ^ 16 = 65536 := by decide
    have hbound : source.getD (y * ss + 2 * x + 1) 0 <<< 8
        ||| source.getD (y * ss + 2 * x) 0 < 2 ^ 16 :=
      Nat.bitwise_lt_two_pow (by omega) (by omega)
    rw [hbyt]
    unfold castFrom
    rw [show 8 * 2 = 16 from rfl, Nat.mod_eq_of_lt hbound]
    exact Nat.lor_comm _ _
  · rintro ⟨hbyt, hw1, hh1⟩
    unfold Plane.copy_from_raw_u8
    rw [if_neg (by omega), if_neg (by decide), if_pos rfl]
    have hxos : p.cfg.xorigin < p.cfg.stride := by omega
    have hrowsge : p.cfg.height ≤ ceilDiv (p.dataLen - p.index 0 0) p.cfg.stride := by
      rw [hlen, hio]
      exact ceilDiv_self_ge _ _ _ _ _ h0 hxos hah
    rw [if_pos ⟨hbyt, by rw [hceilsrc]; omega⟩]

/-- C5 witness: a 1x1 plane with 2-byte samples ingesting a 1x1 source at
both byte widths, and a 1-byte plane hitting the bytewidth-2 assertion. -/
theorem copy_from_raw_u8_values_witness :
    0 < (Plane.new 2 1 1 0 0 0 0).cfg.stride ∧ (0 : Nat) < 2 ∧
      (Plane.new 2 1 1 0 0 0 0).cfg.xorigin + (Plane.new 2 1 1 0 0 0 0).cfg.width
          ≤ (Plane.new 2 1 1 0 0 0 0).cfg.stride ∧
      (Plane.new 2 1 1 0 0 0 0).dataLen
          = (Plane.new 2 1 1 0 0 0 0).cfg.stride * (Plane.new 2 1 1 0 0 0 0).cfg.alloc_height ∧
      (Plane.new 2 1 1 0 0 0 0).cfg.yorigin + (Plane.new 2 1 1 0 0 0 0).cfg.height
          ≤ (Plane.new 2 1 1 0 0 0 0).cfg.alloc_height ∧
      (List.length [3, 200] : Nat) = 2 * (Plane.new 2 1 1 0 0 0 0).cfg.height ∧
      (∀ v ∈ [3, 200], v < 256) ∧
      (((Plane.new 2 1 1 0 0 0 0).cfg.width ≤ 2 ∧ 1 ≤ (Plane.new 2 1 1 0 0 0 0).bytes →
        ∃ q, (Plane.new 2 1 1 0 0 0 0).copy_from_raw_u8 [3, 200] 2 1 = some q ∧
          ∀ x, x < (Plane.new 2 1 1 0 0 0 0).cfg.width →
            ∀ y, y < (Plane.new 2 1 1 0 0 0 0).cfg.height →
              q.p x y = List.getD [3, 200] (y * 2 + x) 0) ∧
        (2 * (Plane.new 2 1 1 0 0 0 0).cfg.width ≤ 2 ∧ (2 : Nat) % 2 = 0
            ∧ (Plane.new 2 1 1 0 0 0 0).bytes = 2 →
          ∃ q, (Plane.new 2 1 1 0 0 0 0).copy_from_raw_u8 [3, 200] 2 2 = some q ∧
            ∀ x, x < (Plane.new 2 1 1 0 0 0 0).cfg.width →
              ∀ y, y < (Plane.new 2 1 1 0 0 0 0).cfg.height →
                q.p x y = List.getD [3, 200] (y * 2 + 2 * x) 0
                  ||| List.getD [3, 200] (y * 2 + 2 * x + 1) 0 <<< 8) ∧
        ((Plane.new 2 1 1 0 0 0 0).bytes < 2 ∧ 1 ≤ (Plane.new 2 1 1 0 0 0 0).cfg.width
            ∧ 1 ≤ (Plane.new 2 1 1 0 0 0 0).cfg.height →
          (Plane.new 2 1 1 0 0 0 0).copy_from_raw_u8 [3, 200] 2 2 = none)) :=
  ⟨by decide, by decide, by decide, by decide, by decide, by decide,
    by decide,
    copy_from_raw_u8_values (Plane.new 2 1 1 0 0 0 0) [3, 200] 2
      (by decide) (by decide) (by decide) (by decide) (by decide) (by decide)
      (by decide)⟩

/-! ### `PlaneIter`: the row-major pixel iterator -/

/-- The cursor state of `PlaneIter` (`x`, `y` over the visible region). -/
structure PlaneIterState where
  x : Nat
  y : Nat
deriving Repr, DecidableEq

/-- `PlaneIter::next`: stop at `y == height`; otherwise read `p(x, y)` and
advance in row-major order, wrapping at `x == width - 1`. -/
def PlaneIter.next (p : Plane) : PlaneIterState → Option (Nat × PlaneIterState)
  | ⟨x, y⟩ =>
    if y = p.cfg.height then none
    else if x = p.cfg.width - 1 then some (p.p x y, ⟨0, y + 1⟩)
    else some (p.p x y, ⟨x + 1, y⟩)

/-- The state after one `next` call (unchanged once the iterator is done). -/
def PlaneIter.step (p : Plane) (s : PlaneIterState) : PlaneIterState :=
  match PlaneIter.next p s with
  | none => s
  | some (_, s2) => s2

/-- The iterator state after `k` calls to `next`, starting from
`PlaneIter::new` (`x = 0, y = 0`). -/
def PlaneIter.stateAt (p : Plane) : Nat → PlaneIterState
  | 0 => ⟨0, 0⟩
  | k + 1 => PlaneIter.step p (PlaneIter.stateAt p k)

theorem stateAt_spec (p : Plane) (hW : 1 ≤ p.cfg.width) (k : Nat) :
    PlaneIter.stateAt p k
      = if k < p.cfg.width * p.cfg.height
        then ⟨k % p.cfg.width, k / p.cfg.width⟩
        else ⟨0, p.cfg.height⟩ := by
  induction k with
  | zero =>
    by_cases h : 0 < p.cfg.width * p.cfg.height
    · rw [if_pos h]
      show (⟨0, 0⟩ : PlaneIterState) = _
      rw [Nat.zero_mod, Nat.zero_div]
    · rw [if_neg h]
      have hH0 : p.cfg.height = 0 := by
        rcases Nat.mul_eq_zero.mp
            (show p.cfg.width * p.cfg.height = 0 by omega) with h1 | h2
        · omega
        · exact h2
      rw [hH0]
      rfl
  | succ k ih =>
    show PlaneIter.step p (PlaneIter.stateAt p k) = _
    rw [ih]
    by_cases hk : k < p.cfg.width * p.cfg.height
    · rw [if_pos hk]
      have hyH : k / p.cfg.width < p.cfg.height := by
        rw [Nat.div_lt_iff_lt_mul (by omega : 0 < p.cfg.width)]
        have := Nat.mul_comm p.cfg.width p.cfg.height
        omega
      by_cases hx : k % p.cfg.width = p.cfg.width - 1
      · have hk1 : k + 1 = (k / p.cfg.width + 1) * p.cfg.width := by
          have hdm := Nat.div_add_mod k p.cfg.width
          have h2 : (k / p.cfg.width + 1) * p.cfg.width
              = p.cfg.width * (k / p.cfg.width) + p.cfg.width := by ring
          omega
        have hnext : PlaneIter.step p ⟨k % p.cfg.width, k / p.cfg.width⟩
            = ⟨0, k / p.cfg.width + 1⟩ := by
          simp only [PlaneIter.step, PlaneIter.next]
          rw [if_neg (by omega), if_pos hx]
        rw [hnext]
        by_cases hk1' : k + 1 < p.cfg.width * p.cfg.height
        · rw [if_pos hk1']
          have e1 : (k + 1) % p.cfg.width = 0 := by
            rw [hk1]; exact Nat.mul_mod_left _ _
          have e2 : (k + 1) / p.cfg.width = k / p.cfg.width + 1 := by
            rw [hk1]
            have hd := (div_mod_of_decomp (a := k / p.cfg.width + 1)
              (show (0 : Nat) < p.cfg.width by omega)).1
            simpa using hd
          rw [e1, e2]
        · rw [if_neg hk1']
          have hfin : k / p.cfg.width + 1 = p.cfg.height := by
            have h2 : (k / p.cfg.width + 1) * p.cfg.width
                = p.cfg.height * p.cfg.width := by
              have := Nat.mul_comm p.cfg.width p.cfg.height
              omega
            exact Nat.eq_of_mul_eq_mul_right (by omega) h2
          rw [hfin]
      · have hxW : k % p.cfg.width < p.cfg.width - 1 := by
          have := Nat.mod_lt k (show 0 < p.cfg.width by omega)
          omega
        have hk1 : k + 1 = (k / p.cfg.width) * p.cfg.width + (k % p.cfg.width + 1) := by
          have hdm := Nat.div_add_mod k p.cfg.width
          have h2 : (k / p.cfg.width) * p.cfg.width
              = p.cfg.width * (k / p.cfg.width) := Nat.mul_comm _ _
          omega
        have e1 : (k + 1) % p.cfg.width = k % p.cfg.width + 1 := by
          rw [hk1]; exact (div_mod_of_decomp (by omega)).2
        have e2 : (k + 1) / p.cfg.width = k / p.cfg.width := by
          rw [hk1]; exact (div_mod_of_decomp (by omega)).1
        have hnext : PlaneIter.step p ⟨k % p.cfg.width, k / p.cfg.width⟩
            = ⟨k % p.cfg.width + 1, k / p.cfg.width⟩ := by
          simp only [PlaneIter.step, PlaneIter.next]
          rw [if_neg (by omega), if_neg hx]
        rw [hnext]
        have hk1' : k + 1 < p.cfg.width * p.cfg.height := by
          have h3 : (k / p.cfg.width + 1) * p.cfg.width
              ≤ p.cfg.height * p.cfg.width := Nat.mul_le_mul_right _ (by omega)
          have h4 : (k / p.cfg.width + 1) * p.cfg.width
              = (k / p.cfg.width) * p.cfg.width + p.cfg.width := by ring
          have h5 : p.cfg.height * p.cfg.width = p.cfg.width * p.cfg.height :=
            Nat.mul_comm _ _
          omega
        rw [if_pos hk1', e1, e2]
    · rw [if_neg hk]
      have hnext : PlaneIter.step p ⟨0, p.cfg.height⟩ = ⟨0, p.cfg.height⟩ := by
        simp only [PlaneIter.step, PlaneIter.next]
        rw [if_pos trivial]
      rw [hnext, if_neg (by omega)]

/-- C8: for `width ≥ 1`, the `k`-th `next` call (for `k < width * height`)
yields the pixel `p(k % width, k / width)` — i.e. the values come in
row-major order `(0,0), (1,0), ..., (width-1,0), (0,1), ...`, matching
direct pixel access — and every call from the `width * height`-th on
yields `none`. -/
theorem plane_iter_row_major (p : Plane) (hW : 1 ≤ p.cfg.width) :
    (∀ k, k < p.cfg.width * p.cfg.height →
        (PlaneIter.next p (PlaneIter.stateAt p k)).map Prod.fst
          = some (p.p (k % p.cfg.width) (k / p.cfg.width))) ∧
      ∀ k, p.cfg.width * p.cfg.height ≤ k →
        PlaneIter.next p (PlaneIter.stateAt p k) = none := by
  constructor
  · intro k hk
    rw [stateAt_spec p hW k, if_pos hk]
    have hyH : k / p.cfg.width < p.cfg.height := by
      rw [Nat.div_lt_iff_lt_mul (by omega : 0 < p.cfg.width)]
      have := Nat.mul_comm p.cfg.width p.cfg.height
      omega
    by_cases hx : k % p.cfg.width = p.cfg.width - 1
    · simp only [PlaneIter.next]
      rw [if_neg (by omega), if_pos hx]
      rfl
    · simp only [PlaneIter.next]
      rw [if_neg (by omega), if_neg hx]
      rfl
  · intro k hk
    rw [stateAt_spec p hW k, if_neg (by omega)]
    simp only [PlaneIter.next]
    rw [if_pos trivial]

/-- C8 witness on a 4x2 plane with borders. -/
theorem plane_iter_row_major_witness :
    1 ≤ (Plane.new 1 4 2 0 0 2 2).cfg.width ∧
      ((∀ k, k < (Plane.new 1 4 2 0 0 2 2).cfg.width * (Plane.new 1 4 2 0 0 2 2).cfg.height →
          (PlaneIter.next (Plane.new 1 4 2 0 0 2 2)
              (PlaneIter.stateAt (Plane.new 1 4 2 0 0 2 2) k)).map Prod.fst
            = some ((Plane.new 1 4 2 0 0 2 2).p (k % (Plane.new 1 4 2 0 0 2 2).cfg.width)
                (k / (Plane.new 1 4 2 0 0 2 2).cfg.width))) ∧
        ∀ k, (Plane.new 1 4 2 0 0 2 2).cfg.width * (Plane.new 1 4 2 0 0 2 2).cfg.height ≤ k →
          PlaneIter.next (Plane.new 1 4 2 0 0 2 2)
              (PlaneIter.stateAt (Plane.new 1 4 2 0 0 2 2) k)
            = none) :=
  ⟨by decide, plane_iter_row_major (Plane.new 1 4 2 0 0 2 2) (by decide)⟩

/-! ### `IterWidth`: the row-slice iterator of a read view

`PlaneSlice` holds signed (isize) coordinates.  `IterWidth::next` computes
`y as usize * stride + x as usize` in usize arithmetic; the two casts and
the product/sum wrap modulo `2^64`, which is what makes a negative
coordinate fail the bounds check. -/

def USIZE : Nat := 2 ^ 64

/-- `v as usize` for a signed value: two's-complement wrap into `[0, 2^64)`. -/
def isizeToUsize (v : Int) : Nat := (v % (USIZE : Int)).toNat

/-- `PlaneSlice` (read view): a plane plus a signed coordinate. -/
structure PlaneSlice where
  plane : Plane
  x : Int
  y : Int

/-- `IterWidth`: a `PlaneSlice` cursor plus the requested row width. -/
structure IterWidth where
  ps : PlaneSlice
  width : Nat

/-- `IterWidth::next`: yield the `width`-sample row at the cursor unless
`base + width` runs past the end of the buffer, then advance `y` by one.
(The source has no check against the plane's visible height.) -/
def IterWidth.next (it : IterWidth) : Option (List Nat × IterWidth) :=
  let x := (it.ps.plane.cfg.xorigin : Int) + it.ps.x
  let y := (it.ps.plane.cfg.yorigin : Int) + it.ps.y
  let stride := it.ps.plane.cfg.stride
  let base := (isizeToUsize y * stride + isizeToUsize x) % USIZE
  if it.ps.plane.dataLen < base + it.width then none
  else
    some ((List.range it.width).map fun i => it.ps.plane.data (base + i),
      { it with ps := { it.ps with y := it.ps.y + 1 } })

/-- `IterWidth::size_hint`: reports `height - y` remaining rows. -/
def IterWidth.sizeHint (it : IterWidth) : Nat :=
  it.ps.plane.cfg.height - isizeToUsize it.ps.y

/-- Number of rows produced before the iterator first returns `none`,
up to `fuel` calls. -/
def IterWidth.countRows : Nat → IterWidth → Nat
  | 0, _ => 0
  | fuel + 1, it =>
    match IterWidth.next it with
    | none => 0
    | some (_, it2) => 1 + IterWidth.countRows fuel it2

/-- C4 (evaluation of the code at the failing input): on the plane
`new(4, 2, 0, 0, 2, 2)` (stride 16, `yorigin = ypad = 2`,
`alloc_height = 6`), the slice at `(0, 0)` iterated with width 4 yields
4 rows — running past the visible height into the bottom padding until the
buffer ends — although the plane's height and the iterator's own exact
`size_hint` are 2. -/
theorem iter_width_runs_into_bottom_padding :
    IterWidth.countRows 10
        { ps := { plane := Plane.new 1 4 2 0 0 2 2, x := 0, y := 0 }, width := 4 } = 4 ∧
      (Plane.new 1 4 2 0 0 2 2).cfg.height = 2 ∧
      IterWidth.sizeHint
        { ps := { plane := Plane.new 1 4 2 0 0 2 2, x := 0, y := 0 }, width := 4 } = 2 := by
  refine ⟨?_, by decide, by decide⟩
  decide

end RavPlane
